import Mathlib

/-!
Verification development for the godeputy scraper (src/main.go) and the
gocrawler infrastructure it is built on (worker pool, batching queue,
selector engine, collector), the latter modelled from the specification
since its source is not part of this repository.

Strings are modelled as lists of characters (`Chars`); Go float64 values
are modelled as exact rationals (`ℚ`): every numeric claim under test is
about which decimal numeral a computation produces. `strconv.ParseFloat`
is modelled with its full accept/error split — decimal and hex grammars
with exponents and underscores, the `inf`/`infinity`/`nan` specials, and
the `ErrRange` overflow threshold — returning the exact rational a finite
numeral denotes in place of the correctly rounded float64.
-/

set_option maxRecDepth 8192

namespace GoDeputy

abbrev Chars := List Char

def isDigitCh (c : Char) : Bool := '0' ≤ c && c ≤ '9'

/-- Model of Go `strings.Replace(l, pat, repl, 1)`: replace the first
occurrence of the substring `pat` by `repl`. -/
def replaceFirstSub (pat repl : Chars) (l : Chars) : Chars :=
  match l with
  | [] => []
  | c :: rest =>
    if pat.isPrefixOf (c :: rest) then repl ++ (c :: rest).drop pat.length
    else c :: replaceFirstSub pat repl rest

/-- Model of Go `strings.Replace(l, a, b, 1)` for single characters. -/
def replaceFirstChar (a b : Char) (l : Chars) : Chars :=
  match l with
  | [] => []
  | c :: rest => if c = a then b :: rest else c :: replaceFirstChar a b rest

/-- Model of Go `strings.ReplaceAll(l, a, "")` for a single character. -/
def removeAllChar (a : Char) (l : Chars) : Chars :=
  l.filter (fun c => c ≠ a)

/-- Model of Go `strings.Trim(l, " ")`. -/
def trimSpaces (l : Chars) : Chars :=
  ((l.dropWhile (fun c => c = ' ')).reverse.dropWhile (fun c => c = ' ')).reverse

def digitsVal (l : Chars) : Nat :=
  l.foldl (fun acc c => acc * 10 + (c.toNat - '0'.toNat)) 0

def isHexDigitCh (c : Char) : Bool :=
  isDigitCh c || ('a' ≤ c.toLower && c.toLower ≤ 'f')

def hexDigitVal (c : Char) : Nat :=
  if isDigitCh c then c.toNat - '0'.toNat else c.toLower.toNat - 'a'.toNat + 10

def hexDigitsVal (l : Chars) : Nat :=
  l.foldl (fun acc c => acc * 16 + hexDigitVal c) 0

def icListEq (l target : Chars) : Bool := l.map Char.toLower = target

/-- Case-insensitive `inf` or `infinity`. -/
def isInfForm (l : Chars) : Bool :=
  icListEq l ['i', 'n', 'f'] || icListEq l ['i', 'n', 'f', 'i', 'n', 'i', 't', 'y']

/-- Model of strconv's `special`, restricted to whole-string matches as
`ParseFloat` requires: an optionally signed `inf`/`infinity` or an
unsigned `nan`, case-insensitive (after a sign, strconv's `special` only
looks for the infinity forms, so `+nan` is not accepted). These parse
with a nil error. -/
def specialForm (l : Chars) : Bool :=
  match l with
  | '+' :: rest => isInfForm rest
  | '-' :: rest => isInfForm rest
  | _ => isInfForm l || icListEq l ['n', 'a', 'n']

/-- Model of strconv's `underscoreOK` state machine over the remaining
characters: `saw` is `^` at the start, `0` after a digit (or base
prefix), `_` after an underscore and `!` otherwise; an underscore must
sit between digits. -/
def underscoreOKCore (hex : Bool) : Chars → Char → Bool
  | [], saw => saw ≠ '_'
  | c :: rest, saw =>
    if isDigitCh c || (hex && isHexDigitCh c) then underscoreOKCore hex rest '0'
    else if c = '_' then
      if saw = '0' then underscoreOKCore hex rest '_' else false
    else if saw = '_' then false
    else underscoreOKCore hex rest '!'

/-- Model of strconv's `underscoreOK`: skip an optional sign and a
`0b`/`0o`/`0x` base prefix (which counts as a digit), then run the state
machine; with no underscores present this is vacuously true, matching Go,
which only consults it when underscores were read. -/
def underscoreOK (l : Chars) : Bool :=
  let l1 := match l with
    | '+' :: rest => rest
    | '-' :: rest => rest
    | _ => l
  match l1 with
  | '0' :: b :: rest =>
    if b.toLower = 'b' || b.toLower = 'o' || b.toLower = 'x' then
      underscoreOKCore (b.toLower = 'x') rest '0'
    else underscoreOKCore false l1 '^'
  | _ => underscoreOKCore false l1 '^'

/-- Consume a run of digits of the given class, skipping underscores the
way `readFloat`'s mantissa loop does (their placement is checked
separately by `underscoreOK`); returns the digits and the rest. -/
def takeDigitsU (isDig : Char → Bool) : Chars → (Chars × Chars)
  | [] => ([], [])
  | c :: rest =>
    if isDig c then
      let (d, r) := takeDigitsU isDig rest
      (c :: d, r)
    else if c = '_' then takeDigitsU isDig rest
    else ([], c :: rest)

/-- Exponent digits with strconv's clamp: the accumulator stops growing
once it reaches 10000 (`if e < 10000 { e = e*10 + d }`), underscores are
skipped, and anything else makes the whole string invalid. Without the
clamp the error split would diverge from Go on numerals whose written
exponent exceeds it. -/
def expDigitsVal (acc : Nat) : Chars → Option Nat
  | [] => some acc
  | c :: rest =>
    if isDigitCh c then
      expDigitsVal (if acc < 10000 then acc * 10 + (c.toNat - '0'.toNat) else acc) rest
    else if c = '_' then expDigitsVal acc rest
    else none

/-- The exponent tail after `e`/`p`: optional sign, then a mandatory
first digit (strconv rejects `1e_5`), then digits and underscores up to
the end of the string. -/
def parseExpTail (l : Chars) : Option Int :=
  let core (sign : Int) (r : Chars) : Option Int :=
    match r with
    | c :: _ => if isDigitCh c then (expDigitsVal 0 r).map (fun e => sign * (e : Int)) else none
    | [] => none
  match l with
  | '+' :: r => core 1 r
  | '-' :: r => core (-1) r
  | _ => core 1 l

/-- The exact rational `sign * D * base ^ E` built with `Rat.divInt` so
that the kernel can evaluate it. -/
def mkVal (neg : Bool) (D : Nat) (E : Int) (base : Nat) : ℚ :=
  let sD : Int := if neg then -(D : Int) else (D : Int)
  if 0 ≤ E then Rat.divInt (sD * ((base ^ E.toNat : Nat) : Int)) 1
  else Rat.divInt sD ((base ^ (-E).toNat : Nat) : Int)

/-- Decimal number body (sign already stripped): digits with at most one
dot and at least one digit, then an optional case-insensitive `e`
exponent consuming the rest of the string. Value `D * 10 ^ (e - |frac|)`
is the exact rational the numeral denotes (with Go's exponent clamp). -/
def decNumVal (neg : Bool) (m : Chars) : Option ℚ :=
  let (ip, r1) := takeDigitsU isDigitCh m
  let (fp, r2) := match r1 with
    | '.' :: rr => takeDigitsU isDigitCh rr
    | _ => ([], r1)
  if ip.isEmpty && fp.isEmpty then none
  else
    let D := digitsVal (ip ++ fp)
    match r2 with
    | [] => some (mkVal neg D (0 - (fp.length : Int)) 10)
    | c :: rr =>
      if c.toLower = 'e' then
        (parseExpTail rr).map (fun e => mkVal neg D (e - (fp.length : Int)) 10)
      else none

/-- Hex number body (after the `0x` prefix): hex digits with at most one
dot and at least one digit, then a MANDATORY case-insensitive `p` binary
exponent; a hex fraction digit is worth four bits, so the value is
`H * 2 ^ (p - 4 * |frac|)`. -/
def hexNumVal (neg : Bool) (m : Chars) : Option ℚ :=
  let (ip, r1) := takeDigitsU isHexDigitCh m
  let (fp, r2) := match r1 with
    | '.' :: rr => takeDigitsU isHexDigitCh rr
    | _ => ([], r1)
  if ip.isEmpty && fp.isEmpty then none
  else
    let H := hexDigitsVal (ip ++ fp)
    match r2 with
    | [] => none
    | c :: rr =>
      if c.toLower = 'p' then
        (parseExpTail rr).map (fun e => mkVal neg H (e - (4 * fp.length : Int)) 2)
      else none

/-- Syntactic number parse mirroring `readFloat` plus `ParseFloat`'s
whole-string requirement: optional sign, then a hex form when a `0x`/`0X`
prefix is followed by at least one character (strconv's `i+2 < len(s)`),
otherwise a decimal form; underscore placement per `underscoreOK`.
Returns the exact rational the numeral denotes, before the range check. -/
def goNumVal (l : Chars) : Option ℚ :=
  let (neg, l1) := match l with
    | '+' :: r => (false, r)
    | '-' :: r => (true, r)
    | _ => (false, l)
  if !underscoreOK l then none
  else
    match l1 with
    | '0' :: x :: rest =>
      if x.toLower = 'x' && !rest.isEmpty then hexNumVal neg rest
      else decNumVal neg l1
    | _ => decNumVal neg l1

/-- Overflow at float64 width: a finite value rounds to `±Inf` — and
`ParseFloat` reports `ErrRange`, a non-nil error — exactly when its
magnitude is at least half an ULP above the largest finite float64,
i.e. `|q| ≥ 2 ^ 1024 - 2 ^ 970` (the tie rounds to even, which
overflows). Compared via numerator/denominator so the kernel can
evaluate it. -/
def overflows (q : ℚ) : Bool :=
  (2 ^ 1024 - 2 ^ 970 : Nat) * q.den ≤ q.num.natAbs

/-- Model of Go `strconv.ParseFloat(s, 64)`'s result as `main.go`
consumes it: `none` when `err != nil` (a syntax error, or `ErrRange` on
overflow — underflow returns a nil error in Go, e.g. `2e-324` gives `0,
nil`), and `some q` on success. The grammar covers the decimal and hex
forms, underscores, and the `inf`/`infinity`/`nan` specials. Within the
file's exact-rational envelope a successful finite parse carries the
exact value the numeral denotes (not the rounded float64); the non-finite
specials, which no claim consumes a value from, are carried as `0`. -/
def parseRatChars (l : Chars) : Option ℚ :=
  if specialForm l then some 0
  else
    match goNumVal l with
    | none => none
    | some q => if overflows q then none else some q

/-- The first two statements of `parseFloat` in src/main.go: strip one
`R$` occurrence, then trim spaces. -/
def stripMoney (v : String) : Chars :=
  trimSpaces (replaceFirstSub ['R', '$'] [] v.toList)

/-- Function `parseFloat` from src/main.go: strip `R$` and spaces, normalize the
Brazilian decimal notation (comma decimal separator, dot thousands
separator), then parse. -/
def parseFloat (v : String) : Option ℚ :=
  let l2 := stripMoney v
  let l3 :=
    if l2.contains ',' && l2.contains '.' then
      replaceFirstChar ',' '.' (removeAllChar '.' l2)
    else if l2.contains ',' then
      replaceFirstChar ',' '.' l2
    else if l2.contains '.' then
      removeAllChar '.' l2
    else l2
  parseRatChars l3

/-! Document nodes.

Model of `golang.org/x/net/html.Node` as used by the program: a node has a
type, a `Data` field (tag name for elements, text content for text nodes),
attributes, and `FirstChild`/`NextSibling` pointers. The `nil` constructor
plays the role of the nil pointer; dereferencing it is a runtime fault. -/

inductive NType where
  | elementNode
  | textNode
  | otherNode
deriving DecidableEq

inductive GNode where
  | nil
  | node (ntype : NType) (ndata : String) (attrs : List (String × String))
      (firstChild : GNode) (nextSibling : GNode)
deriving DecidableEq

/-- Runtime faults the Go code can hit: nil-pointer dereference and
index-out-of-range panics. -/
inductive Fault where
  | nilDeref
  | indexOutOfRange
deriving DecidableEq

instance {ε α : Type} [DecidableEq ε] [DecidableEq α] : DecidableEq (Except ε α) := fun a b =>
  match a, b with
  | .error x, .error y =>
    if h : x = y then .isTrue (h ▸ rfl) else .isFalse (fun hc => h (Except.error.inj hc))
  | .error _, .ok _ => .isFalse (fun hc => Except.noConfusion hc)
  | .ok _, .error _ => .isFalse (fun hc => Except.noConfusion hc)
  | .ok x, .ok y =>
    if h : x = y then .isTrue (h ▸ rfl) else .isFalse (fun hc => h (Except.ok.inj hc))

/-- Reading `.Data` of a node pointer; faults on nil. -/
def dataOf : GNode → Except Fault String
  | .nil => .error .nilDeref
  | .node _ d _ _ _ => .ok d

/-- Reading `.Type` of a node pointer; faults on nil. -/
def typeOf : GNode → Except Fault NType
  | .nil => .error .nilDeref
  | .node t _ _ _ _ => .ok t

/-- Reading `.FirstChild` of a node pointer; faults on nil. -/
def firstChildOf : GNode → Except Fault GNode
  | .nil => .error .nilDeref
  | .node _ _ _ fc _ => .ok fc

def lookupAttr (name : String) : List (String × String) → Option String
  | [] => none
  | (k, v) :: rest => if k = name then some v else lookupAttr name rest

/-- Modelled from the spec: the Selector Engine's `Attribute(name)` accessor
(source in the external gocrawler repository, not under src/): `Value(node)`
returns the attribute's value, or the empty string if the attribute is
absent on that node — never fails. -/
def attrVal (name : String) : GNode → String
  | .nil => ""
  | .node _ _ attrs _ _ => (lookupAttr name attrs).getD ""

/-! Selector engine, modelled from the spec (gocrawler source not under
src/): a selector is a whitespace-separated chain of compound matchers,
each a conjunction of tag-equals, id-equals and class-contains predicates,
joined by the descendant relation. -/

structure Compound where
  tagName : Option String
  idName : Option String
  classNames : List String
deriving DecidableEq

def finishPart (acc : Compound) (marker : Char) (nm : Chars) : Option Compound :=
  if marker = 't' then
    if nm.isEmpty then some acc else some { acc with tagName := some (String.mk nm) }
  else if nm.isEmpty then none
  else if marker = '#' then some { acc with idName := some (String.mk nm) }
  else some { acc with classNames := acc.classNames ++ [String.mk nm] }

def compileTokenAux : Chars → Compound → Char → Chars → Option Compound
  | [], acc, marker, nm => finishPart acc marker nm
  | c :: rest, acc, marker, nm =>
    if c = '#' || c = '.' then
      match finishPart acc marker nm with
      | none => none
      | some acc2 => compileTokenAux rest acc2 c []
    else compileTokenAux rest acc marker (nm ++ [c])

/-- Modelled from the spec: parse one compound-matcher token — optional
leading tag name, optional `#id`, zero or more `.class`; `none` models a
`SyntaxError` (empty compound or empty id/class name). -/
def compileToken (tok : Chars) : Option Compound :=
  if tok.isEmpty then none else compileTokenAux tok ⟨none, none, []⟩ 't' []

/-- Modelled from the spec: `Compile` splits the selector string on
whitespace into compound-matcher tokens and parses each. -/
def compile (s : String) : Option (List Compound) :=
  let toks := (s.toList.splitOn ' ').filter (fun t => !t.isEmpty)
  if toks.isEmpty then none else toks.mapM compileToken

def splitClasses (s : String) : List String :=
  ((s.toList.splitOn ' ').filter (fun t => !t.isEmpty)).map String.mk

/-- Modelled from the spec: one compound matcher matches a node iff the
node's tag equals the tag predicate (elements only), its `id` attribute
equals the id predicate, and each class predicate occurs among the node's
classes. -/
def matchesCompound (c : Compound) (n : GNode) : Bool :=
  match n with
  | .nil => false
  | .node t d attrs _ _ =>
    (match c.tagName with
     | some tag => t = NType.elementNode && d = tag
     | none => true) &&
    (match c.idName with
     | some i => (lookupAttr "id" attrs).getD "" = i
     | none => true) &&
    c.classNames.all (fun cl => (splitClasses ((lookupAttr "class" attrs).getD "")).contains cl)

/-- Modelled from the spec: a node matches a selector chain iff there is a
non-decreasing assignment of its ancestors (root-first list `ancs`) to all
but the last compound matcher, the node itself matching the last one. -/
def chainMatches (cs : List Compound) (ancs : List GNode) (n : GNode) : Bool :=
  match cs with
  | [] => false
  | [c] => matchesCompound c n
  | c :: cs2 =>
    match ancs with
    | [] => false
    | a :: ancs2 =>
      (matchesCompound c a && chainMatches cs2 ancs2 n) || chainMatches (c :: cs2) ancs2 n

/-- Pre-order traversal of a child list (a node and its following
siblings), collecting each node with its root-first ancestor list. -/
def collectNodes : GNode → List GNode → List (GNode × List GNode)
  | .nil, _ => []
  | .node t d a fc ns, ancs =>
    (GNode.node t d a fc ns, ancs) ::
      (collectNodes fc (ancs ++ [GNode.node t d a fc ns]) ++ collectNodes ns ancs)

/-- Candidates of `Select(root)`: the root itself and its subtree, in
document order — the root's own siblings are not part of the tree handed
to `Select`. -/
def rootCandidates (root : GNode) : List (GNode × List GNode) :=
  match root with
  | .nil => []
  | .node _ _ _ fc _ => (root, []) :: collectNodes fc [root]

/-- Modelled from the spec: `Select` returns the matching nodes in document
order; an empty result is not an error. -/
def selectNodes (cs : List Compound) (root : GNode) : List GNode :=
  ((rootCandidates root).filter (fun p => chainMatches cs p.2 p.1)).map Prod.fst

/-- Compile-then-select, as the collector does for each registered rule. -/
def selectString (s : String) (root : GNode) : List GNode :=
  match compile s with
  | none => []
  | some cs => selectNodes cs root

/-! Regular-expression models.

`deputyRegex` is the pattern from src/main.go:
`(?P<Name>[\w\W\s]*) \((?P<PoliticalParty>[\w\W\s]*)-(?P<State>[\w\W\s]*)\)`.
Since `[\w\W\s]` matches any character, the pattern is `G1 " (" G2 "-" G3 ")"`
with all three groups arbitrary and greedy.  Go's leftmost-first greedy
semantics makes the match start at index 0 and picks, in order: the last
`" ("` whose tail still contains a `'-'` followed later by `')'`, then the
last such `'-'`, then the last `')'`. -/

/-- Split `l` as `a ++ pat ++ b` at the LAST occurrence of `pat` whose
suffix `b` satisfies `ok` (greedy choice for an any-character prefix
group). -/
def splitAtLastSub (pat : Chars) (ok : Chars → Bool) (l : Chars) : Option (Chars × Chars) :=
  match l with
  | [] => none
  | c :: rest =>
    match splitAtLastSub pat ok rest with
    | some (a, b) => some (c :: a, b)
    | none =>
      if pat.isPrefixOf (c :: rest) && ok ((c :: rest).drop pat.length) then
        some ([], (c :: rest).drop pat.length)
      else none

/-- The tail of a deputy match: contains a `'-'` followed (not necessarily
immediately) by a `')'`. -/
def deputyTailOk (b : Chars) : Bool :=
  (splitAtLastSub ['-'] (fun q => q.contains ')') b).isSome

/-- Model of `deputyRegex.FindStringSubmatch`, returning the
`(Name, PoliticalParty, State)` capture groups; `none` models the nil
slice returned when there is no match. -/
def deputyFind (s : String) : Option (String × String × String) :=
  match splitAtLastSub [' ', '('] deputyTailOk s.toList with
  | none => none
  | some (g1, r) =>
    match splitAtLastSub ['-'] (fun q => q.contains ')') r with
    | none => none
    | some (g2, r2) =>
      match splitAtLastSub [')'] (fun _ => true) r2 with
      | none => none
      | some (g3, _) => some (String.mk g1, String.mk g2, String.mk g3)

/-- The pattern `realRegex` is `R\$\s(?P<VALUE>[0-9.]*,[0-9]{2})` from
src/main.go.  RE2's `\s` is exactly one of space, tab, newline, form feed
or carriage return. -/
def isSpaceCh (c : Char) : Bool :=
  c = ' ' || c = '\t' || c = '\n' || c = '\x0c' || c = '\r'

def isDigitDot (c : Char) : Bool := isDigitCh c || c = '.'

/-- Try to match `realRegex` at the head of `l`; the `[0-9.]*` run is
greedy and deterministic (the class excludes `','`), so no backtracking is
needed. Returns the full match, which is what the code indexes as
`strs[0]`. -/
def realFindAt (l : Chars) : Option Chars :=
  match l with
  | 'R' :: '$' :: w :: rest =>
    if isSpaceCh w then
      let num := rest.takeWhile isDigitDot
      match rest.drop num.length with
      | ',' :: d1 :: d2 :: _ =>
        if isDigitCh d1 && isDigitCh d2 then
          some ('R' :: '$' :: w :: (num ++ [',', d1, d2]))
        else none
      | _ => none
    else none
  | _ => none

def realFindChars : Chars → Option Chars
  | [] => none
  | c :: rest =>
    match realFindAt (c :: rest) with
    | some m => some m
    | none => realFindChars rest

/-- Model of `realRegex.FindStringSubmatch(...)`'s full-match entry
(`strs[0]`): the leftmost match of the pattern, or `none` for the nil
slice when the string contains no match. -/
def realFind (s : String) : Option String :=
  (realFindChars s.toList).map String.mk

/-! Domain data model (src/main.go). -/

structure CostDetail where
  description : String
  value : ℚ
deriving DecidableEq

structure Deputy where
  id : String
  name : String
  politicalParty : String
  state : String
  salary : ℚ
  officeBudget : ℚ
  parliamentaryQuota : ℚ
  parliamentaryQuotaDetails : List CostDetail
  total : ℚ
deriving DecidableEq

/-- Errors returned (not panicked) by the OnNode callbacks of
`setDeputyDetails`: a bare `parseFloat` error, `error.cost.details`, and
`error.cost.total`. -/
inductive CbErr where
  | parseErr
  | costDetailsErr
  | costTotalErr
deriving DecidableEq

/-- A registered OnNode callback for the detail page: reads the matched
node, may fault, and otherwise returns the updated deputy together with an
optional returned error. -/
abbrev NodeCb := GNode → Deputy → Except Fault (Deputy × Option CbErr)

/-- The `section#verba ... p.gastos__resumo-texto--destaque` callback of
`setDeputyDetails`: `data := node.FirstChild.Data`,
`strs := realRegex.FindStringSubmatch(data)`, `parseFloat(strs[0])`,
assign `deputy.OfficeBudget`. -/
def cbOfficeBudget : NodeCb := fun n d =>
  match firstChildOf n with
  | .error f => .error f
  | .ok fc =>
    match dataOf fc with
    | .error f => .error f
    | .ok data =>
      match realFind data with
      | none => .error .indexOutOfRange
      | some m =>
        match parseFloat m with
        | none => .ok (d, some .parseErr)
        | some v => .ok ({ d with officeBudget := v }, none)

/-- The `div.remuneracao-viagens ... p.remuneracao-viagens__desc` callback
of `setDeputyDetails`: same shape as `cbOfficeBudget`, assigning
`deputy.Salary`. -/
def cbSalary : NodeCb := fun n d =>
  match firstChildOf n with
  | .error f => .error f
  | .ok fc =>
    match dataOf fc with
    | .error f => .error f
    | .ok data =>
      match realFind data with
      | none => .error .indexOutOfRange
      | some m =>
        match parseFloat m with
        | none => .ok (d, some .parseErr)
        | some v => .ok ({ d with salary := v }, none)

/-- The `section#cota table#js-tipo-despesa.js-chart--pie tbody tr`
callback of `setDeputyDetails`: selects `td` descendants of the row,
parses `nodes[1].FirstChild.Data`, and appends a `CostDetail` with
description `nodes[0].FirstChild.Data`; Go's evaluation order indexes and
dereferences `nodes[1]` before `nodes[0]`, and returns the wrapped parse
error before ever touching `nodes[0]`. -/
def cbQuotaDetails : NodeCb := fun n d =>
  let tds := selectString "td" n
  match tds.get? 1 with
  | none => .error .indexOutOfRange
  | some n1 =>
    match firstChildOf n1 with
    | .error f => .error f
    | .ok fc1 =>
      match dataOf fc1 with
      | .error f => .error f
      | .ok data1 =>
        match parseFloat data1 with
        | none => .ok (d, some .costDetailsErr)
        | some v =>
          match tds.get? 0 with
          | none => .error .indexOutOfRange
          | some n0 =>
            match firstChildOf n0 with
            | .error f => .error f
            | .ok fc0 =>
              match dataOf fc0 with
              | .error f => .error f
              | .ok data0 =>
                .ok ({ d with parliamentaryQuotaDetails :=
                  d.parliamentaryQuotaDetails ++ [⟨data0, v⟩] }, none)

/-- The `div.gastos__resumo div.card-body section
p.gastos__resumo-texto--destaque span` callback of `setDeputyDetails`:
parses `node.FirstChild.Data` directly (no regex step) and assigns
`deputy.ParliamentaryQuota`. -/
def cbQuota : NodeCb := fun n d =>
  match firstChildOf n with
  | .error f => .error f
  | .ok fc =>
    match dataOf fc with
    | .error f => .error f
    | .ok data =>
      match parseFloat data with
      | none => .ok (d, some .costTotalErr)
      | some v => .ok ({ d with parliamentaryQuota := v }, none)

/-! Collector, modelled from the spec (gocrawler source not under src/):
`Visit` fetches and parses a document, then for each registered
`(selector, callback)` pair in registration order invokes the callback
once per selected node in document order; a callback error aborts the
remaining invocations and is returned as a `CallbackError`; fetch/parse
failure is returned without running any callback. The fetch outcome is a
parameter (`none` = `FetchError`/`ParseError`, `some root` = the parsed
tree). -/

inductive VisitErr where
  | fetchErr
  | callbackErr (e : CbErr)
deriving DecidableEq

def runNodesCb (cb : NodeCb) (nodes : List GNode) (d : Deputy) :
    Except Fault (Deputy × Option CbErr) :=
  match nodes with
  | [] => .ok (d, none)
  | n :: rest =>
    match cb n d with
    | .error f => .error f
    | .ok (d2, some e) => .ok (d2, some e)
    | .ok (d2, none) => runNodesCb cb rest d2

def runOnNodeRules (rules : List (String × NodeCb)) (root : GNode) (d : Deputy) :
    Except Fault (Deputy × Option CbErr) :=
  match rules with
  | [] => .ok (d, none)
  | (sel, cb) :: rest =>
    match runNodesCb cb (selectString sel root) d with
    | .error f => .error f
    | .ok (d2, some e) => .ok (d2, some e)
    | .ok (d2, none) => runOnNodeRules rest root d2

/-- Modelled from the spec: `Collector.Visit` over a fetch outcome. -/
def visitModel (fetch : Option GNode) (rules : List (String × NodeCb)) (d : Deputy) :
    Except Fault (Deputy × Option VisitErr) :=
  match fetch with
  | none => .ok (d, some .fetchErr)
  | some root =>
    match runOnNodeRules rules root d with
    | .error f => .error f
    | .ok (d2, some e) => .ok (d2, some (.callbackErr e))
    | .ok (d2, none) => .ok (d2, none)

/-- The four OnNode registrations of `setDeputyDetails`, in registration
order, with their selector strings from src/main.go. -/
def deputyDetailRules : List (String × NodeCb) :=
  [("section#verba div.container div.gastos__resumo p.gastos__resumo-texto--destaque",
    cbOfficeBudget),
   ("div.remuneracao-viagens div#remuneracao p.remuneracao-viagens__desc", cbSalary),
   ("section#cota table#js-tipo-despesa.js-chart--pie tbody tr", cbQuotaDetails),
   ("div.gastos__resumo div.card-body section p.gastos__resumo-texto--destaque span",
    cbQuota)]

/-- Handler `setDeputyDetails` from src/main.go, the worker-pool handler: one
`Visit` (the fetch outcome is the `fetch` parameter — there is no retry);
on a `Visit` error the handler returns at once; on success it sets
`deputy.Total = Salary + OfficeBudget + ParliamentaryQuota` and then adds
the deputy to the batching queue.  The second component is the list of
queue `Add` calls the handler performs. -/
def setDeputyDetails (fetch : Option GNode) (d : Deputy) :
    Except Fault (Deputy × List Deputy) :=
  match visitModel fetch deputyDetailRules d with
  | .error f => .error f
  | .ok (d2, some _) => .ok (d2, [])
  | .ok (d2, none) =>
    let d3 := { d2 with total := d2.salary + d2.officeBudget + d2.parliamentaryQuota }
    .ok (d3, [d3])

/-- The `select#deputado option` callback of `getDeputiesCost` from
src/main.go: if the option's first child is a text node whose data matches
`deputyRegex`, build a `Deputy` from the capture groups and the `value`
attribute and submit it to the worker pool (second component of the
result); in every other non-faulting case return nil with no submission. -/
def deputadoOptionCb (n : GNode) : Except Fault (Option CbErr × List Deputy) :=
  match firstChildOf n with
  | .error f => .error f
  | .ok fc =>
    match typeOf fc with
    | .error f => .error f
    | .ok t =>
      if t = NType.textNode then
        match dataOf fc with
        | .error f => .error f
        | .ok data =>
          match deputyFind data with
          | none => .ok (none, [])
          | some (nm, pp, st) =>
            .ok (none, [{ id := attrVal "value" n, name := nm, politicalParty := pp,
                          state := st, salary := 0, officeBudget := 0,
                          parliamentaryQuota := 0, parliamentaryQuotaDetails := [],
                          total := 0 }])
      else .ok (none, [])

/-! Flush sink (`writeDeputies`, src/main.go).

The three package-level aggregation variables, with Go map semantics
modelled as total functions with the zero-value default (`nil`/`0`): the
code's `if deputies == nil { deputies = make(...) }` makes a missing key
behave exactly like the empty list. -/

structure AggState where
  politicalPartyMap : String → List Deputy
  politicalPartyTotalMap : String → ℚ
  deputiesArray : List Deputy

def aggInit : AggState := ⟨fun _ => [], fun _ => 0, []⟩

/-- The body of the `for _, d := range deputies` loop of `writeDeputies`:
append `d` to its party's list and to `deputiesArray`, and add `d.Total`
to its party's tally. -/
def writeDeputy (s : AggState) (d : Deputy) : AggState :=
  { politicalPartyMap := fun p =>
      if p = d.politicalParty then s.politicalPartyMap p ++ [d] else s.politicalPartyMap p,
    politicalPartyTotalMap := fun p =>
      if p = d.politicalParty then s.politicalPartyTotalMap p + d.total
      else s.politicalPartyTotalMap p,
    deputiesArray := s.deputiesArray ++ [d] }

/-- Sink `writeDeputies` from src/main.go, the batching queue's flush callback. -/
def writeDeputies (s : AggState) (batch : List Deputy) : AggState :=
  batch.foldl writeDeputy s

/-! Batching Queue, modelled from the spec (gocrawler source not under
src/): items are appended to a buffer under a lock; a size-or-time trigger
swaps the buffer out as one flushed batch; `Close` performs one final
flush of the remaining items (skipped if empty) and is idempotent.  With
the producer serialized by the buffer lock, a run is a sequence of `add`,
`flushTick` (either trigger) and `close` events. -/

inductive QEvent (T : Type) where
  | add (t : T)
  | flushTick
  | close
deriving DecidableEq

structure QState (T : Type) where
  buffer : List T
  flushed : List (List T)
  closed : Bool

def qInit (T : Type) : QState T := ⟨[], [], false⟩

/-- Modelled from the spec: one step of the Batching Queue.  `add` appends
to the buffer (the queue no longer accepts items once closed); a flush
trigger hands the whole buffer to the sink as one batch, skipped when the
buffer is empty; `close` does a final flush and sets the closed flag,
idempotently. -/
def qStep {T : Type} (s : QState T) (e : QEvent T) : QState T :=
  match e with
  | .add t => if s.closed then s else { s with buffer := s.buffer ++ [t] }
  | .flushTick =>
    if s.closed then s
    else if s.buffer.isEmpty then s
    else { s with buffer := [], flushed := s.flushed ++ [s.buffer] }
  | .close =>
    if s.closed then s
    else { buffer := [],
           flushed := if s.buffer.isEmpty then s.flushed else s.flushed ++ [s.buffer],
           closed := true }

def qRun {T : Type} (s : QState T) (evs : List (QEvent T)) : QState T :=
  evs.foldl qStep s

/-- The items added by a run, in the order they were added. -/
def addsOf {T : Type} : List (QEvent T) → List T
  | [] => []
  | .add t :: rest => t :: addsOf rest
  | .flushTick :: rest => addsOf rest
  | .close :: rest => addsOf rest

/-! Worker Pool, modelled from the spec (gocrawler source not under
src/): `K` worker loops pull items from a shared intake and run the
handler synchronously, so at most `K` handlers are ever in flight; `Wait`
returns when the pool is quiescent (nothing pending, nothing running). -/

inductive WEvent where
  | add
  | beginTask
  | finishTask
deriving DecidableEq

structure WState where
  limit : Nat
  pending : Nat
  running : Nat
  completed : Nat
deriving DecidableEq

def wInit (k : Nat) : WState := ⟨k, 0, 0, 0⟩

/-- Modelled from the spec: one scheduling step of the Worker Pool.  A
worker can begin a task only when one is pending and a worker loop is
free (fewer than `limit` handlers running, since each of the `K` loops
executes its handler synchronously). -/
def wStep (s : WState) (e : WEvent) : WState :=
  match e with
  | .add => { s with pending := s.pending + 1 }
  | .beginTask =>
    if s.pending > 0 && s.running < s.limit then
      { s with pending := s.pending - 1, running := s.running + 1 }
    else s
  | .finishTask =>
    if s.running > 0 then
      { s with running := s.running - 1, completed := s.completed + 1 }
    else s

def wRun (k : Nat) (evs : List WEvent) : WState :=
  evs.foldl wStep (wInit k)

def countAdds (evs : List WEvent) : Nat :=
  (evs.filter (fun e => e = WEvent.add)).length

/-! Auxiliary predicates and concrete inputs used by the theorems. -/

/-- True iff evaluating the Go code modelled by `r` panics (nil
dereference or index out of range), as opposed to completing — possibly
with a returned error. -/
def isFaultR {α : Type} (r : Except Fault α) : Bool :=
  match r with
  | .error _ => true
  | .ok _ => false

/-- The data of a node's first child, when the node has one. -/
def childData (n : GNode) : Option String :=
  match firstChildOf n with
  | .error _ => none
  | .ok fc =>
    match dataOf fc with
    | .error _ => none
    | .ok s => some s

/-- Fault condition of the office-budget and salary callbacks: the matched
node has no first child, or the child's data contains no `realRegex`
match. -/
def moneyTextFaultCond (n : GNode) : Bool :=
  match childData n with
  | none => true
  | some s => (realFind s).isNone

/-- Fault condition of the parliamentary-quota callback: the matched node
has no first child (its data's content is irrelevant — `parseFloat`
returns an error rather than faulting). -/
def childFaultCond (n : GNode) : Bool := (childData n).isNone

/-- Fault condition of the quota-details callback: the `td` query on the
row yields fewer than two nodes, or the second one has no first child, or
its data is accepted by `strconv.ParseFloat` (nil error — syntax and
range errors both count as failure) while the first one has no first
child; on a parse error the wrapped error is returned before `nodes[0]`
is ever touched. -/
def tdRowFaultCond (n : GNode) : Bool :=
  match (selectString "td" n).get? 1 with
  | none => true
  | some n1 =>
    match childData n1 with
    | none => true
    | some s1 =>
      match parseFloat s1 with
      | none => false
      | some _ =>
        match (selectString "td" n).get? 0 with
        | none => true
        | some n0 => (childData n0).isNone

/-- Follows the claim's words (C8): remove one `R$` PREFIX — rather than
the first occurrence anywhere, which is what `strings.Replace(v, "R$", "",
1)` does — then trim spaces. -/
def stripMoneyPrefixSpec (v : String) : Chars :=
  trimSpaces (if (['R', '$'] : Chars).isPrefixOf v.toList then v.toList.drop 2 else v.toList)

/-- Follows the claim's words (C8): `parseFloat` with the `R$` removal
read as prefix-only; identical to `parseFloat` thereafter. -/
def parseFloatPrefixSpec (v : String) : Option ℚ :=
  let l2 := stripMoneyPrefixSpec v
  let l3 :=
    if l2.contains ',' && l2.contains '.' then
      replaceFirstChar ',' '.' (removeAllChar '.' l2)
    else if l2.contains ',' then
      replaceFirstChar ',' '.' l2
    else if l2.contains '.' then
      removeAllChar '.' l2
    else l2
  parseRatChars l3

/-- A generic deputy value used as a concrete handler input in witnesses. -/
def deputy0 : Deputy := ⟨"", "", "", "", 0, 0, 0, [], 0⟩

/-- The text node of the end-to-end document of the spec's §8 example. -/
def textC5 : GNode := .node .textNode "Jane Doe (PP-SP)" [] .nil .nil

/-- The `<option value="1">Jane Doe (PP-SP)</option>` element. -/
def optionC5 : GNode := .node .elementNode "option" [("value", "1")] textC5 .nil

/-- The document `<select id="deputado"><option value="1">Jane Doe
(PP-SP)</option></select>`. -/
def docC5 : GNode := .node .elementNode "select" [("id", "deputado")] optionC5 .nil

/-- The deputy the §8 example callback must submit. -/
def deputyC5 : Deputy := ⟨"1", "Jane Doe", "PP", "SP", 0, 0, 0, [], 0⟩

/-- A matched `span` whose first child is a text node reading `abc`: it
has a first child, but its text contains no `realRegex` amount. -/
def spanAbc : GNode :=
  .node .elementNode "span" [] (.node .textNode "abc" [] .nil .nil) .nil

/-- An option element whose first child is an element, not a text node. -/
def optionElemChild : GNode :=
  .node .elementNode "option" [("value", "9")] (.node .elementNode "b" [] .nil .nil) .nil

/-! Helper lemmas shared by the claim theorems. -/

theorem lookupAttr_mem (name v : String) (attrs : List (String × String))
    (hu : (attrs.map Prod.fst).Nodup) (hm : (name, v) ∈ attrs) :
    lookupAttr name attrs = some v := by
  induction attrs with
  | nil => cases hm
  | cons kv rest ih =>
    obtain ⟨k, w⟩ := kv
    simp only [List.map_cons, List.nodup_cons] at hu
    simp only [lookupAttr]
    rcases List.mem_cons.mp hm with h | h
    · cases h
      simp
    · by_cases hk : k = name
      · subst hk
        exact absurd (List.mem_map.mpr ⟨(k, v), h, rfl⟩) hu.1
      · simp only [if_neg hk]
        exact ih hu.2 h

theorem lookupAttr_not_mem (name : String) (attrs : List (String × String))
    (hn : name ∉ attrs.map Prod.fst) :
    lookupAttr name attrs = none := by
  induction attrs with
  | nil => rfl
  | cons kv rest ih =>
    obtain ⟨k, w⟩ := kv
    simp only [List.map_cons, List.mem_cons] at hn
    push_neg at hn
    simp only [lookupAttr, if_neg (fun h : k = name => hn.1 h.symm)]
    exact ih hn.2

theorem cbOfficeBudget_total (n : GNode) (d d2 : Deputy) (r : Option CbErr)
    (h : cbOfficeBudget n d = .ok (d2, r)) : d2.total = d.total := by
  simp only [cbOfficeBudget] at h
  repeat' split at h
  all_goals (first | exact Except.noConfusion h |
    (simp only [Except.ok.injEq, Prod.mk.injEq] at h; rw [← h.1]))

theorem cbSalary_total (n : GNode) (d d2 : Deputy) (r : Option CbErr)
    (h : cbSalary n d = .ok (d2, r)) : d2.total = d.total := by
  simp only [cbSalary] at h
  repeat' split at h
  all_goals (first | exact Except.noConfusion h |
    (simp only [Except.ok.injEq, Prod.mk.injEq] at h; rw [← h.1]))

theorem cbQuota_total (n : GNode) (d d2 : Deputy) (r : Option CbErr)
    (h : cbQuota n d = .ok (d2, r)) : d2.total = d.total := by
  simp only [cbQuota] at h
  repeat' split at h
  all_goals (first | exact Except.noConfusion h |
    (simp only [Except.ok.injEq, Prod.mk.injEq] at h; rw [← h.1]))

theorem cbQuotaDetails_total (n : GNode) (d d2 : Deputy) (r : Option CbErr)
    (h : cbQuotaDetails n d = .ok (d2, r)) : d2.total = d.total := by
  simp only [cbQuotaDetails] at h
  repeat' split at h
  all_goals (first | exact Except.noConfusion h |
    (simp only [Except.ok.injEq, Prod.mk.injEq] at h; rw [← h.1]))

theorem runNodesCb_total (cb : NodeCb)
    (hcb : ∀ n d d2 r, cb n d = .ok (d2, r) → d2.total = d.total) :
    ∀ (nodes : List GNode) (d d2 : Deputy) (r : Option CbErr),
      runNodesCb cb nodes d = .ok (d2, r) → d2.total = d.total := by
  intro nodes
  induction nodes with
  | nil =>
    intro d d2 r h
    simp only [runNodesCb, Except.ok.injEq, Prod.mk.injEq] at h
    rw [← h.1]
  | cons nd rest ih =>
    intro d d2 r h
    simp only [runNodesCb] at h
    cases hc : cb nd d with
    | error f =>
      rw [hc] at h
      exact Except.noConfusion h
    | ok p =>
      obtain ⟨dm, e2⟩ := p
      rw [hc] at h
      cases e2 with
      | some e =>
        simp only [Except.ok.injEq, Prod.mk.injEq] at h
        rw [← h.1]
        exact hcb nd d dm (some e) hc
      | none =>
        exact (ih dm d2 r h).trans (hcb nd d dm none hc)

theorem runOnNodeRules_total (rules : List (String × NodeCb))
    (hp : ∀ pr ∈ rules, ∀ n d d2 r, pr.2 n d = .ok (d2, r) → d2.total = d.total) :
    ∀ (root : GNode) (d d2 : Deputy) (r : Option CbErr),
      runOnNodeRules rules root d = .ok (d2, r) → d2.total = d.total := by
  induction rules with
  | nil =>
    intro root d d2 r h
    simp only [runOnNodeRules, Except.ok.injEq, Prod.mk.injEq] at h
    rw [← h.1]
  | cons pr rest ih =>
    intro root d d2 r h
    obtain ⟨sel, cb⟩ := pr
    simp only [runOnNodeRules] at h
    cases hc : runNodesCb cb (selectString sel root) d with
    | error f =>
      rw [hc] at h
      exact Except.noConfusion h
    | ok p =>
      obtain ⟨dm, e2⟩ := p
      rw [hc] at h
      have hstep : dm.total = d.total :=
        runNodesCb_total cb (hp (sel, cb) (List.mem_cons_self _ _))
          (selectString sel root) d dm e2 hc
      cases e2 with
      | some e =>
        simp only [Except.ok.injEq, Prod.mk.injEq] at h
        rw [← h.1]
        exact hstep
      | none =>
        exact (ih (fun q hq => hp q (List.mem_cons_of_mem _ hq)) root dm d2 r h).trans hstep

theorem visitModel_total (fetch : Option GNode) (d d2 : Deputy) (r : Option VisitErr)
    (h : visitModel fetch deputyDetailRules d = .ok (d2, r)) : d2.total = d.total := by
  have hp : ∀ pr ∈ deputyDetailRules, ∀ n d d2 r,
      pr.2 n d = Except.ok (d2, r) → d2.total = d.total := by
    intro pr hpr
    simp only [deputyDetailRules, List.mem_cons, List.not_mem_nil, or_false] at hpr
    rcases hpr with h1 | h1 | h1 | h1
    · subst h1; exact cbOfficeBudget_total
    · subst h1; exact cbSalary_total
    · subst h1; exact cbQuotaDetails_total
    · subst h1; exact cbQuota_total
  cases fetch with
  | none =>
    simp only [visitModel, Except.ok.injEq, Prod.mk.injEq] at h
    rw [← h.1]
  | some root =>
    simp only [visitModel] at h
    cases hc : runOnNodeRules deputyDetailRules root d with
    | error f =>
      rw [hc] at h
      exact Except.noConfusion h
    | ok p =>
      obtain ⟨dm, e2⟩ := p
      rw [hc] at h
      have hstep := runOnNodeRules_total deputyDetailRules hp root d dm e2 hc
      cases e2 with
      | some e =>
        simp only [Except.ok.injEq, Prod.mk.injEq] at h
        rw [← h.1]
        exact hstep
      | none =>
        simp only [Except.ok.injEq, Prod.mk.injEq] at h
        rw [← h.1]
        exact hstep

theorem foldl_writeDeputy_props (del : List Deputy) :
    ∀ (s : AggState) (p : String),
      ((del.foldl writeDeputy s).politicalPartyTotalMap p =
        s.politicalPartyTotalMap p +
          ((del.filter (fun d => d.politicalParty = p)).map Deputy.total).sum) ∧
      ((del.foldl writeDeputy s).politicalPartyMap p =
        s.politicalPartyMap p ++ del.filter (fun d => d.politicalParty = p)) ∧
      ((del.foldl writeDeputy s).deputiesArray = s.deputiesArray ++ del) := by
  induction del with
  | nil => intro s p; simp
  | cons d rest ih =>
    intro s p
    simp only [List.foldl_cons, List.filter_cons]
    obtain ⟨ih1, ih2, ih3⟩ := ih (writeDeputy s d) p
    by_cases hp : d.politicalParty = p
    · subst hp
      rw [if_pos (by simp)]
      refine ⟨?_, ?_, ?_⟩
      · rw [ih1]; simp [writeDeputy, add_assoc]
      · rw [ih2]; simp [writeDeputy]
      · rw [ih3]; simp [writeDeputy]
    · rw [if_neg (by simp [hp])]
      have hp2 : ¬ p = d.politicalParty := fun h => hp h.symm
      refine ⟨?_, ?_, ?_⟩
      · rw [ih1]; simp [writeDeputy, hp2]
      · rw [ih2]; simp [writeDeputy, hp2]
      · rw [ih3]; simp [writeDeputy]

theorem qRun_noclose (T : Type) (evs : List (QEvent T)) :
    ∀ (s : QState T), (∀ e ∈ evs, e ≠ QEvent.close) → s.closed = false →
      (qRun s evs).closed = false ∧
      (qRun s evs).flushed.flatten ++ (qRun s evs).buffer =
        s.flushed.flatten ++ s.buffer ++ addsOf evs := by
  induction evs with
  | nil => intro s hno hcl; simp [qRun, addsOf, hcl]
  | cons e rest ih =>
    intro s hno hcl
    have hrest : ∀ x ∈ rest, x ≠ QEvent.close := fun x hx => hno x (List.mem_cons_of_mem _ hx)
    have hQ : qRun s (e :: rest) = qRun (qStep s e) rest := by simp [qRun]
    cases e with
    | add t =>
      have hstep : qStep s (QEvent.add t) = { s with buffer := s.buffer ++ [t] } := by
        simp [qStep, hcl]
      rw [hQ, hstep]
      obtain ⟨hc, hb⟩ := ih { s with buffer := s.buffer ++ [t] } hrest (by simp [hcl])
      refine ⟨hc, ?_⟩
      rw [hb]
      simp [addsOf]
    | flushTick =>
      by_cases hemp : s.buffer.isEmpty
      · have hstep : qStep s QEvent.flushTick = s := by simp [qStep, hcl, hemp]
        rw [hQ, hstep]
        obtain ⟨hc, hb⟩ := ih s hrest hcl
        refine ⟨hc, ?_⟩
        rw [hb]
        simp [addsOf]
      · have hstep : qStep s QEvent.flushTick =
            { s with buffer := [], flushed := s.flushed ++ [s.buffer] } := by
          simp [qStep, hcl, hemp]
        rw [hQ, hstep]
        obtain ⟨hc, hb⟩ := ih { s with buffer := [], flushed := s.flushed ++ [s.buffer] }
          hrest (by simp [hcl])
        refine ⟨hc, ?_⟩
        rw [hb]
        simp [addsOf]
    | close => exact absurd rfl (hno QEvent.close (List.mem_cons_self _ _))

theorem wStep_inv (evs : List WEvent) :
    ∀ (s : WState), s.running ≤ s.limit →
      ((evs.foldl wStep s).limit = s.limit ∧
       (evs.foldl wStep s).running ≤ s.limit ∧
       (evs.foldl wStep s).pending + (evs.foldl wStep s).running + (evs.foldl wStep s).completed =
         s.pending + s.running + s.completed + countAdds evs) := by
  induction evs with
  | nil => intro s hr; simp [countAdds, hr]
  | cons e rest ih =>
    intro s hr
    simp only [List.foldl_cons]
    cases e with
    | add =>
      have hstep : wStep s WEvent.add = { s with pending := s.pending + 1 } := by
        simp [wStep]
      rw [hstep]
      obtain ⟨h1, h2, h3⟩ := ih { s with pending := s.pending + 1 } (by simpa using hr)
      have hcnt : countAdds (WEvent.add :: rest) = countAdds rest + 1 := by
        simp [countAdds]
      refine ⟨h1, h2, ?_⟩
      rw [hcnt]
      simp only at h3
      omega
    | beginTask =>
      have hcnt : countAdds (WEvent.beginTask :: rest) = countAdds rest := by
        simp [countAdds]
      by_cases hp : s.pending > 0
      · by_cases hrl : s.running < s.limit
        · have hstep : wStep s WEvent.beginTask =
              { s with pending := s.pending - 1, running := s.running + 1 } := by
            simp [wStep, hp, hrl]
          rw [hstep]
          obtain ⟨h1, h2, h3⟩ := ih { s with pending := s.pending - 1, running := s.running + 1 }
            (by simp; omega)
          refine ⟨h1, h2, ?_⟩
          rw [hcnt]
          simp only at h3
          omega
        · have hstep : wStep s WEvent.beginTask = s := by simp [wStep, hrl]
          rw [hstep, hcnt]
          exact ih s hr
      · have hstep : wStep s WEvent.beginTask = s := by simp [wStep, hp]
        rw [hstep, hcnt]
        exact ih s hr
    | finishTask =>
      have hcnt : countAdds (WEvent.finishTask :: rest) = countAdds rest := by
        simp [countAdds]
      by_cases hrun : s.running > 0
      · have hstep : wStep s WEvent.finishTask =
            { s with running := s.running - 1, completed := s.completed + 1 } := by
          simp [wStep, hrun]
        rw [hstep]
        obtain ⟨h1, h2, h3⟩ := ih { s with running := s.running - 1, completed := s.completed + 1 }
          (by simp; omega)
        refine ⟨h1, h2, ?_⟩
        rw [hcnt]
        simp only at h3
        omega
      · have hstep : wStep s WEvent.finishTask = s := by simp [wStep, hrun]
        rw [hstep, hcnt]
        exact ih s hr

/-! Claim theorems. -/

/-- Claim C1: for every item added to the Batching Queue before `Close`
returns, that item appears in exactly one flushed batch, in the order it
was added (the buffer lock serializes the adds of a producer); after `N`
adds followed by `Close`, the concatenation of all flushed batches is
exactly the list of added items — in particular it has exactly `N`
elements — and the buffer is left empty. -/
theorem queue_no_loss (T : Type) (evs : List (QEvent T))
    (hno : ∀ e ∈ evs, e ≠ QEvent.close) :
    (qRun (qInit T) (evs ++ [QEvent.close])).flushed.flatten = addsOf evs ∧
    ((qRun (qInit T) (evs ++ [QEvent.close])).flushed.flatten).length = (addsOf evs).length ∧
    (qRun (qInit T) (evs ++ [QEvent.close])).buffer = [] := by
  have hsplit : qRun (qInit T) (evs ++ [QEvent.close]) =
      qStep (qRun (qInit T) evs) QEvent.close := by
    simp [qRun, List.foldl_append]
  obtain ⟨hc, hb⟩ := qRun_noclose T evs (qInit T) hno rfl
  have hb2 : (qRun (qInit T) evs).flushed.flatten ++ (qRun (qInit T) evs).buffer =
      addsOf evs := hb.trans (by simp [qInit])
  rw [hsplit]
  by_cases hemp : (qRun (qInit T) evs).buffer.isEmpty
  · have hbe : (qRun (qInit T) evs).buffer = [] := by
      simpa [List.isEmpty_iff] using hemp
    have hfl : (qRun (qInit T) evs).flushed.flatten = addsOf evs := by
      rw [← hb2]
      simp [hbe]
    refine ⟨by simp [qStep, hc, hemp, hfl], by simp [qStep, hc, hemp, hfl],
      by simp [qStep, hc, hemp]⟩
  · refine ⟨by simp [qStep, hc, hemp, hb2], by simp [qStep, hc, hemp, hb2],
      by simp [qStep, hc, hemp]⟩

/-- Witness for C1 at a concrete run: two adds around a flush tick,
then close. -/
theorem queue_no_loss_witness :
    (qRun (qInit Nat)
      ([QEvent.add 1, QEvent.flushTick, QEvent.add 2] ++ [QEvent.close])).flushed.flatten =
      addsOf [QEvent.add 1, QEvent.flushTick, QEvent.add 2] ∧
    ((qRun (qInit Nat)
      ([QEvent.add 1, QEvent.flushTick, QEvent.add 2] ++ [QEvent.close])).flushed.flatten).length =
      (addsOf [QEvent.add 1, QEvent.flushTick, QEvent.add 2]).length ∧
    (qRun (qInit Nat)
      ([QEvent.add 1, QEvent.flushTick, QEvent.add 2] ++ [QEvent.close])).buffer = [] :=
  queue_no_loss Nat [QEvent.add 1, QEvent.flushTick, QEvent.add 2] (by decide)

/-- Claim C2: in every run of the Worker Pool model with concurrency `k`,
at most `k` handlers are running at any reachable state, and whenever
`Wait` can return (nothing pending, nothing running) the number of
completed handlers equals the number of submitted tasks. -/
theorem worker_bound_and_wait (k : Nat) (evs : List WEvent) :
    (wRun k evs).running ≤ k ∧
    ((wRun k evs).pending = 0 → (wRun k evs).running = 0 →
      (wRun k evs).completed = countAdds evs) := by
  obtain ⟨h1, h2, h3⟩ := wStep_inv evs (wInit k) (by simp [wInit])
  simp [wInit] at h2 h3
  constructor
  · simpa [wRun, wInit] using h2
  · intro hp hr
    simp only [wRun] at hp hr ⊢
    simp [wInit] at hp hr ⊢
    omega

/-- Witness for C2 at a concrete run: one task through a pool of two
workers. -/
theorem worker_bound_and_wait_witness :
    (wRun 2 [WEvent.add, WEvent.beginTask, WEvent.finishTask]).running ≤ 2 ∧
    (wRun 2 [WEvent.add, WEvent.beginTask, WEvent.finishTask]).completed =
      countAdds [WEvent.add, WEvent.beginTask, WEvent.finishTask] :=
  ⟨(worker_bound_and_wait 2 [WEvent.add, WEvent.beginTask, WEvent.finishTask]).1,
   (worker_bound_and_wait 2 [WEvent.add, WEvent.beginTask, WEvent.finishTask]).2
     (by decide) (by decide)⟩

/-- Claim C3: whenever `Collector.Visit` succeeds inside the handler
`setDeputyDetails`, the handler sets `deputy.Total` to `Salary +
OfficeBudget + ParliamentaryQuota` (over the field values the callbacks
left) and then adds the deputy to the batching queue exactly once — the
queue receives the singleton list holding the deputy with its `Total`
already set, so the assignment happens before the `Add`. -/
theorem setDeputyDetails_success (fetch : Option GNode) (d d2 : Deputy)
    (h : visitModel fetch deputyDetailRules d = .ok (d2, none)) :
    setDeputyDetails fetch d =
      .ok ({ d2 with total := d2.salary + d2.officeBudget + d2.parliamentaryQuota },
           [{ d2 with total := d2.salary + d2.officeBudget + d2.parliamentaryQuota }]) := by
  simp [setDeputyDetails, h]

/-- Witness for C3: a successful visit of an empty document tree. -/
theorem setDeputyDetails_success_witness :
    setDeputyDetails (some GNode.nil) deputy0 =
      .ok ({ deputy0 with
              total := deputy0.salary + deputy0.officeBudget + deputy0.parliamentaryQuota },
           [{ deputy0 with
              total := deputy0.salary + deputy0.officeBudget + deputy0.parliamentaryQuota }]) :=
  setDeputyDetails_success (some GNode.nil) deputy0 deputy0 (by decide)

/-- Claim C4: when `Collector.Visit` inside `setDeputyDetails` returns an
error, the handler returns immediately: nothing is added to the batching
queue, and the deputy's `Total` is never computed — it still holds its
value from before the handler ran (the single `fetch` parameter also
makes the absence of a retry structural: the handler consults the fetch
outcome exactly once). -/
theorem setDeputyDetails_visitErr (fetch : Option GNode) (d d2 : Deputy) (e : VisitErr)
    (h : visitModel fetch deputyDetailRules d = .ok (d2, some e)) :
    setDeputyDetails fetch d = .ok (d2, []) ∧ d2.total = d.total := by
  refine ⟨?_, visitModel_total fetch d d2 (some e) h⟩
  simp [setDeputyDetails, h]

/-- Witness for C4: a failed fetch. -/
theorem setDeputyDetails_visitErr_witness :
    setDeputyDetails none deputy0 = .ok (deputy0, []) ∧ deputy0.total = deputy0.total :=
  setDeputyDetails_visitErr none deputy0 deputy0 .fetchErr (by decide)

/-- Claim C5: on the document `<select id="deputado"><option
value="1">Jane Doe (PP-SP)</option></select>`, selecting
`select#deputado option` yields exactly the option node, and the
registered callback submits to the worker pool exactly one `Deputy` with
`ID "1"`, `Name "Jane Doe"`, `PoliticalParty "PP"`, `State "SP"`;
`Attribute("value")` reads `"1"` off that node. -/
theorem endToEnd_example :
    selectString "select#deputado option" docC5 = [optionC5] ∧
    deputadoOptionCb optionC5 = .ok (none, [deputyC5]) ∧
    attrVal "value" optionC5 = "1" :=
  ⟨by decide, by decide, by decide⟩

/-- Claim C6: after any sequence of flushes, `politicalPartyTotalMap p` is
the sum of `Total` over delivered deputies of party `p`,
`politicalPartyMap p` is exactly those deputies in delivery order, and
`deputiesArray` is the full delivery sequence (each delivered deputy
exactly once, in order). -/
theorem writeDeputies_agg (batches : List (List Deputy)) (p : String) :
    ((batches.foldl writeDeputies aggInit).politicalPartyTotalMap p =
      (((batches.flatten).filter (fun d => d.politicalParty = p)).map Deputy.total).sum) ∧
    ((batches.foldl writeDeputies aggInit).politicalPartyMap p =
      (batches.flatten).filter (fun d => d.politicalParty = p)) ∧
    ((batches.foldl writeDeputies aggInit).deputiesArray = batches.flatten) := by
  have hjoin : ∀ (bs : List (List Deputy)) (s : AggState),
      bs.foldl writeDeputies s = (bs.flatten).foldl writeDeputy s := by
    intro bs
    induction bs with
    | nil => intro s; simp
    | cons b rest ih =>
      intro s
      simp [List.foldl_append, writeDeputies, ih]
  rw [hjoin]
  obtain ⟨h1, h2, h3⟩ := foldl_writeDeputy_props (batches.flatten) aggInit p
  exact ⟨by rw [h1]; simp [aggInit], by rw [h2]; simp [aggInit], by rw [h3]; simp [aggInit]⟩

/-- Claim C7: the accessor produced by `Attribute(name)` returns the
attribute's value when present (attribute keys being unique per the data
model) and the empty string when absent; it is a total function — it
never fails. -/
theorem attribute_value_total (name v : String) (t : NType) (dta : String)
    (attrs : List (String × String)) (fc ns : GNode)
    (hu : (attrs.map Prod.fst).Nodup) :
    ((name, v) ∈ attrs → attrVal name (.node t dta attrs fc ns) = v) ∧
    (name ∉ attrs.map Prod.fst → attrVal name (.node t dta attrs fc ns) = "") := by
  constructor
  · intro hm
    simp [attrVal, lookupAttr_mem name v attrs hu hm]
  · intro hn
    simp [attrVal, lookupAttr_not_mem name attrs hn]

/-- Witness for C7: a present and an absent attribute on a concrete
node. -/
theorem attribute_value_total_witness :
    attrVal "value" (.node .elementNode "option" [("value", "1")] .nil .nil) = "1" ∧
    attrVal "missing" (.node .elementNode "option" [("value", "1")] .nil .nil) = "" :=
  ⟨(attribute_value_total "value" "1" .elementNode "option" [("value", "1")] .nil .nil
      (by decide)).1 (by decide),
   (attribute_value_total "missing" "1" .elementNode "option" [("value", "1")] .nil .nil
      (by decide)).2 (by decide)⟩

/-- Claim C8, counterexample to the claim as stated: `parseFloat` removes
the FIRST occurrence of `R$`, not only a prefix — on `"1R$2"` the code
removes the mid-string `R$` and parses `12`, while the claim's
prefix-only reading leaves the string unparseable. -/
theorem parseFloat_not_prefix_only :
    parseFloat "1R$2" = some ((12 : Nat) : ℚ) ∧ parseFloatPrefixSpec "1R$2" = none :=
  ⟨by decide, by decide⟩

/-- Claim C8 as amended: `parseFloat` removes the first `R$` occurrence
(on its intended inputs always the prefix) and trims spaces; then with
both a comma and a dot present it deletes all dots and turns the first
comma into a dot, with only a comma it turns that comma into a dot, and
with only dots it deletes them all; consequently `parseFloat "R$
1.234,56" = 1234.56` while `parseFloat "12.5" = 125` — a dot without a
comma is always a thousands separator. -/
theorem parseFloat_branches :
    (∀ v : String, (stripMoney v).contains ',' = true → (stripMoney v).contains '.' = true →
       parseFloat v = parseRatChars (replaceFirstChar ',' '.' (removeAllChar '.' (stripMoney v)))) ∧
    (∀ v : String, (stripMoney v).contains ',' = true → (stripMoney v).contains '.' = false →
       parseFloat v = parseRatChars (replaceFirstChar ',' '.' (stripMoney v))) ∧
    (∀ v : String, (stripMoney v).contains ',' = false → (stripMoney v).contains '.' = true →
       parseFloat v = parseRatChars (removeAllChar '.' (stripMoney v))) ∧
    parseFloat "R$ 1.234,56" = some (123456 / 100 : ℚ) ∧
    parseFloat "12.5" = some (125 : ℚ) := by
  refine ⟨?_, ?_, ?_, ?_, ?_⟩
  · intro v h1 h2
    simp at h1 h2
    simp [parseFloat, h1, h2]
  · intro v h1 h2
    simp at h1 h2
    simp [parseFloat, h1, h2]
  · intro v h1 h2
    simp at h1 h2
    simp [parseFloat, h1, h2]
  · have h : parseFloat "R$ 1.234,56" = some (Rat.divInt 123456 100) := by decide
    rw [h]
    norm_num [Rat.divInt_eq_div]
  · have h : parseFloat "12.5" = some ((125 : Nat) : ℚ) := by decide
    rw [h]
    norm_num

/-- Witness for C8: one concrete input through each normalization
branch. -/
theorem parseFloat_branches_witness :
    parseFloat "1.2,3" =
      parseRatChars (replaceFirstChar ',' '.' (removeAllChar '.' (stripMoney "1.2,3"))) ∧
    parseFloat "1,5" = parseRatChars (replaceFirstChar ',' '.' (stripMoney "1,5")) ∧
    parseFloat "12.5" = parseRatChars (removeAllChar '.' (stripMoney "12.5")) :=
  ⟨parseFloat_branches.1 "1.2,3" (by decide) (by decide),
   parseFloat_branches.2.1 "1,5" (by decide) (by decide),
   parseFloat_branches.2.2.1 "12.5" (by decide) (by decide)⟩

/-- Claim C9, counterexample to the claim as stated: the
parliamentary-quota callback, on a matched node whose first child is the
text `abc` — which contains no amount matching `realRegex`, violating
the claim's precondition — completes WITHOUT a runtime fault (it merely
returns a parse error), contradicting "for a matched node violating this
precondition, evaluation faults". -/
theorem fault_characterization_counterexample :
    childData spanAbc = some "abc" ∧ realFind "abc" = none ∧
    isFaultR (cbQuota spanAbc deputy0) = false :=
  ⟨by decide, by decide, by decide⟩

/-- Claim C9 as amended: the office-budget and salary callbacks fault iff
the matched node lacks a first child or the child's data contains no
`realRegex` match; the quota-details callback faults iff the `td` query
yields fewer than two nodes, or the second's first child is absent, or
its data is accepted by `strconv.ParseFloat` (nil error; a range error on
overflow counts as failure) while the first's first child is absent; the
parliamentary-quota callback faults iff the node lacks a first child —
in every other case each callback completes, possibly returning an
error. -/
theorem fault_characterization (n : GNode) (d : Deputy) :
    isFaultR (cbOfficeBudget n d) = moneyTextFaultCond n ∧
    isFaultR (cbSalary n d) = moneyTextFaultCond n ∧
    isFaultR (cbQuotaDetails n d) = tdRowFaultCond n ∧
    isFaultR (cbQuota n d) = childFaultCond n := by
  refine ⟨?_, ?_, ?_, ?_⟩
  · simp only [cbOfficeBudget, moneyTextFaultCond, childData]
    cases hfc : firstChildOf n with
    | error f => simp [isFaultR]
    | ok fc =>
      try dsimp only
      cases hd : dataOf fc with
      | error f => simp [isFaultR]
      | ok s =>
        try dsimp only
        cases hr : realFind s with
        | none => simp [isFaultR]
        | some m =>
          try dsimp only
          cases hp : parseFloat m <;> simp [isFaultR, hr]
  · simp only [cbSalary, moneyTextFaultCond, childData]
    cases hfc : firstChildOf n with
    | error f => simp [isFaultR]
    | ok fc =>
      try dsimp only
      cases hd : dataOf fc with
      | error f => simp [isFaultR]
      | ok s =>
        try dsimp only
        cases hr : realFind s with
        | none => simp [isFaultR]
        | some m =>
          try dsimp only
          cases hp : parseFloat m <;> simp [isFaultR, hr]
  · simp only [cbQuotaDetails, tdRowFaultCond, childData]
    cases hg1 : (selectString "td" n).get? 1 with
    | none => simp [isFaultR]
    | some n1 =>
      try dsimp only
      cases hfc1 : firstChildOf n1 with
      | error f => simp [isFaultR]
      | ok fc1 =>
        try dsimp only
        cases hd1 : dataOf fc1 with
        | error f => simp [isFaultR]
        | ok s1 =>
          try dsimp only
          cases hp1 : parseFloat s1 with
          | none => simp [isFaultR]
          | some v =>
            try dsimp only
            cases hg0 : (selectString "td" n).get? 0 with
            | none => simp [isFaultR]
            | some n0 =>
              try dsimp only
              cases hfc0 : firstChildOf n0 with
              | error f => simp [isFaultR]
              | ok fc0 =>
                try dsimp only
                cases hd0 : dataOf fc0 <;> simp [isFaultR]
  · simp only [cbQuota, childFaultCond, childData]
    cases hfc : firstChildOf n with
    | error f => simp [isFaultR]
    | ok fc =>
      try dsimp only
      cases hd : dataOf fc with
      | error f => simp [isFaultR]
      | ok s =>
        try dsimp only
        cases hp : parseFloat s <;> simp [isFaultR]

/-- Claim C10: an option node whose first child exists but is not a text
node, or whose text does not match `deputyRegex`, is silently skipped —
no deputy is built, nothing is submitted, and the callback returns nil
rather than an error. -/
theorem deputadoOptionCb_skips (tf : NType) (df : String) (af : List (String × String))
    (fcf nsf : GNode) (t : NType) (dta : String) (attrs : List (String × String)) (ns : GNode)
    (h : tf ≠ NType.textNode ∨ (tf = NType.textNode ∧ deputyFind df = none)) :
    deputadoOptionCb (.node t dta attrs (.node tf df af fcf nsf) ns) = .ok (none, []) := by
  simp only [deputadoOptionCb, firstChildOf, typeOf, dataOf]
  rcases h with h | ⟨ht, hf⟩
  · simp [h]
  · simp [ht, hf]

/-- Witness for C10: an option whose first child is an element node. -/
theorem deputadoOptionCb_skips_witness :
    deputadoOptionCb optionElemChild = .ok (none, []) :=
  deputadoOptionCb_skips .elementNode "b" [] .nil .nil .elementNode "option" [("value", "9")]
    .nil (Or.inl (by decide))

end GoDeputy
